import Mathlib

/-! Shallow embedding of the `Calculator` state engine of
`src/calculator.py` (CustomTkinter Python Calculator).

Numeric idealization: Python `float` values are modelled as exact
rationals (`ℚ`); binary-float rounding, overflow and the shortest-repr
of `str(float)` are idealized by exact arithmetic and exact decimal
printing.  `math.sqrt` is modelled by `ratSqrt` (exact on perfect
squares), and `**` by `qpow` (exact for integer exponents; a
non-integer exponent falls outside the rational domain and is given a
junk value, a case no claim exercises). -/

/-- The decimal digit characters produced by Python `str` on naturals. -/
def digCh (n : ℕ) : Char :=
  match n with
  | 0 => '0'
  | 1 => '1'
  | 2 => '2'
  | 3 => '3'
  | 4 => '4'
  | 5 => '5'
  | 6 => '6'
  | 7 => '7'
  | 8 => '8'
  | 9 => '9'
  | _ => '9'

/-- Fuel-driven digit expansion of a natural number, most significant first. -/
def natDigsAux : ℕ → ℕ → List Char
  | 0, _ => []
  | fuel + 1, n => if n < 10 then [digCh n] else natDigsAux fuel (n / 10) ++ [digCh (n % 10)]

/-- Model of Python `str` on a non-negative integer. -/
def natStr (n : ℕ) : String :=
  String.mk (natDigsAux (n + 1) n)

/-- Model of Python `str` on an integer. -/
def intStr (i : ℤ) : String :=
  if i < 0 then "-" ++ natStr i.natAbs else natStr i.natAbs

/-- Numeric value of a list of decimal digit characters. -/
def digitsVal (cs : List Char) : ℕ :=
  cs.foldl (fun a c => a * 10 + (c.toNat - 48)) 0

/-! The library's `Rat.add`, `Rat.sub`, `Rat.mul` and `Rat.inv` are
`@[irreducible]`, so concrete states could not be evaluated inside
proofs through them.  The embedding therefore computes with the
following definitionally transparent equivalents (each is proved equal
to the library operation below). -/

/-- Transparent rational addition, equal to `Rat.add`. -/
def qadd (a b : ℚ) : ℚ := mkRat (a.num * b.den + b.num * a.den) (a.den * b.den)

/-- Transparent rational subtraction, equal to `Rat.sub`. -/
def qsub (a b : ℚ) : ℚ := mkRat (a.num * b.den - b.num * a.den) (a.den * b.den)

/-- Transparent rational multiplication, equal to `Rat.mul`. -/
def qmul (a b : ℚ) : ℚ := mkRat (a.num * b.num) (a.den * b.den)

/-- Transparent rational inverse, equal to `Rat.inv`. -/
def qinv (a : ℚ) : ℚ := Rat.divInt a.den a.num

/-- Transparent rational division, equal to `Rat.div`. -/
def qdiv (a b : ℚ) : ℚ := qmul a (qinv b)

/-- Transparent integer power on rationals, equal to `zpow`. -/
def qzpow (a : ℚ) : ℤ → ℚ
  | .ofNat m => a ^ m
  | .negSucc m => qinv (a ^ (m + 1))

/-- Parse an unsigned decimal literal (`digits`, `digits.`, `.digits`,
`digits.digits`), applying the sign afterwards.  Models the grammar of
Python `float()` on the strings this calculator can produce; anything
else is a `ValueError`, i.e. `none`. -/
def parseSigned (neg : Bool) (cs : List Char) : Option ℚ :=
  let ip := cs.takeWhile Char.isDigit
  let rest := cs.dropWhile Char.isDigit
  let val? : Option ℚ :=
    match rest with
    | [] => if ip = [] then none else some (digitsVal ip)
    | '.' :: fp =>
        if fp.all Char.isDigit ∧ (ip ≠ [] ∨ fp ≠ []) then
          some (mkRat (digitsVal ip * 10 ^ fp.length + digitsVal fp : ℕ) (10 ^ fp.length))
        else none
    | _ => none
  match val? with
  | none => none
  | some v => some (if neg then -v else v)

/-- Model of Python `float(s)`: `none` models a raised `ValueError`. -/
def parseNum (s : String) : Option ℚ :=
  match s.data with
  | '-' :: cs => parseSigned true cs
  | '+' :: cs => parseSigned false cs
  | cs => parseSigned false cs

/-- Smallest `k ≤ fuel` with `d ∣ 10 ^ k`, searched upward from `k`. -/
def tenExpAux (d : ℕ) : ℕ → ℕ → Option ℕ
  | _, 0 => none
  | k, fuel + 1 => if 10 ^ k % d = 0 then some k else tenExpAux d (k + 1) fuel

/-- Number of decimal fraction digits needed to print `1 / d` exactly. -/
def tenExp (d : ℕ) : Option ℕ :=
  tenExpAux d 0 64

/-- Left-pad a digit string with zeros to length `k`. -/
def natPad (k : ℕ) (s : String) : String :=
  if k ≤ s.length then s else String.mk (List.replicate (k - s.length) '0') ++ s

/-- Model of Python `str` on a `float` value: `"5.0"` for an integral
value, otherwise sign, integer part, a dot and the fraction digits
(exact when the denominator divides a power of ten, truncated to 17
digits otherwise, idealizing the float repr). -/
def pyFloatStr (q : ℚ) : String :=
  if q.den = 1 then intStr q.num ++ ".0"
  else
    let k := (tenExp q.den).getD 17
    let n := q.num.natAbs * 10 ^ k / q.den
    (if q.num < 0 then "-" else "") ++ natStr (n / 10 ^ k) ++ "." ++ natPad k (natStr (n % 10 ^ k))

/-- Model of the `Union[float, str]` value returned by `calculate`. -/
inductive PyVal where
  | num (q : ℚ)
  | str (s : String)
deriving DecidableEq

/-- Model of `str(result)` after the lines 111-112 of the source turned
an integral float into an `int`. -/
def valStr : PyVal → String
  | .num q => if q.den = 1 then intStr q.num else pyFloatStr q
  | .str s => s

/-- Largest `k ≤ bound` with `k * k ≤ n`, by downward scan (a
definitionally transparent floor square root on naturals). -/
def natSqrtGo (n : ℕ) : ℕ → ℕ
  | 0 => 0
  | k + 1 => if (k + 1) * (k + 1) ≤ n then k + 1 else natSqrtGo n k

/-- Transparent floor square root on naturals. -/
def natSqrt (n : ℕ) : ℕ :=
  natSqrtGo n n

/-- Model of `math.sqrt` on a non-negative rational: exact on perfect
squares (the only case the claims exercise). -/
def ratSqrt (q : ℚ) : ℚ :=
  mkRat (natSqrt q.num.toNat : ℕ) (natSqrt q.den)

/-- Model of Python `**` on rationals; exact for an integer exponent,
junk otherwise (a non-integer exponent leaves the rational domain). -/
def qpow (a b : ℚ) : ℚ :=
  if b.den = 1 then qzpow a b.num else 0

/-- State of the `Calculator` class, fields as in `Calculator.__init__`. -/
structure Calculator where
  current_input : String
  previous_input : String
  operation : Option String
  memory : ℚ
  history : List String
  last_operation : String
deriving DecidableEq

/-- State built by `Calculator.__init__`. -/
def initCalc : Calculator :=
  ⟨"0", "", none, 0, [], ""⟩

/-- Python truthiness of the `operation` field (`None` and `""` are falsy). -/
def opTruthy (o : Option String) : Prop :=
  o ≠ none ∧ o ≠ some ""

instance (o : Option String) : Decidable (opTruthy o) := by
  unfold opTruthy; infer_instance

/-- Model of `Calculator.add_to_input`. -/
def add_to_input (s : Calculator) (value : String) : Calculator :=
  if value = "." ∧ '.' ∈ s.current_input.data then s
  else if s.current_input = "0" ∧ value ≠ "." then { s with current_input := value }
  else { s with current_input := s.current_input ++ value }

/-- Model of `Calculator.clear_all`: memory is not touched. -/
def clear_all (s : Calculator) : Calculator :=
  { s with current_input := "0", previous_input := "", operation := none
           last_operation := "", history := [] }

/-- Model of `Calculator.clear_entry`, with the source's (dead) guard
that re-checks the just-assigned `current_input`. -/
def clear_entry (s : Calculator) : Calculator :=
  let s1 := { s with current_input := "0" }
  if opTruthy s1.operation ∧ s1.current_input = "" then
    { s1 with operation := none, last_operation := "" }
  else s1

/-- Tail of `Calculator.calculate` after a result was produced without
an exception: format, append to history, trim to 10, store and return. -/
def finishCalc (s : Calculator) (op : String) (r : PyVal) : Calculator × PyVal :=
  let rs := valStr r
  let entry := s.previous_input ++ " " ++ op ++ " " ++ s.current_input ++ " = " ++ rs
  let h := s.history ++ [entry]
  let h2 := if 10 < h.length then h.drop 1 else h
  ({ s with current_input := rs, operation := none, last_operation := "", history := h2 }, r)

/-- Dispatch on the operation symbol, lines 95-108 of the source.  A
zero right operand under `/` produces the string `"Error: Div/0"` as
the `result` (no exception), `0 ** negative` raises `ZeroDivisionError`,
`math.sqrt` of a negative raises `ValueError` (generic `Exception`
handler), and an unknown symbol returns `"Error"` without touching the
state. -/
def calcDispatch (s : Calculator) (op : String) (num1 num2 : ℚ) : Calculator × PyVal :=
  if op = "+" then finishCalc s op (.num (qadd num1 num2))
  else if op = "-" then finishCalc s op (.num (qsub num1 num2))
  else if op = "*" then finishCalc s op (.num (qmul num1 num2))
  else if op = "/" then
    if num2 ≠ 0 then finishCalc s op (.num (qdiv num1 num2))
    else finishCalc s op (.str "Error: Div/0")
  else if op = "^" then
    if num1 = 0 ∧ num2 < 0 then (clear_all s, .str "Error: Div/0")
    else finishCalc s op (.num (qpow num1 num2))
  else if op = "√" then
    if num1 < 0 then (clear_all s, .str "Error")
    else finishCalc s op (.num (ratSqrt num1))
  else (s, .str "Error")

/-- Model of `Calculator.calculate`.  Returns the new state and the
returned value; an unparseable operand models the `ValueError` caught
by the generic handler (full reset, `"Error"`). -/
def calculate (s : Calculator) : Calculator × PyVal :=
  match s.operation with
  | none => (s, .str (if s.current_input = "" then "0" else s.current_input))
  | some op =>
    if op = "" ∨ s.previous_input = "" then
      (s, .str (if s.current_input = "" then "0" else s.current_input))
    else
      match parseNum s.previous_input with
      | none => (clear_all s, .str "Error")
      | some num1 =>
        match (if s.current_input = "" then some num1 else parseNum s.current_input) with
        | none => (clear_all s, .str "Error")
        | some num2 => calcDispatch s op num1 num2

/-- Model of `Calculator.set_operation`. -/
def set_operation (s : Calculator) (op : String) : Calculator :=
  if s.current_input = "" then s
  else
    let s1 := if opTruthy s.operation ∧ s.previous_input ≠ "" then (calculate s).1 else s
    { s1 with previous_input := s1.current_input, current_input := "", operation := some op
              last_operation := s1.current_input ++ " " ++ op }

/-- Model of `Calculator.memory_add` (`ValueError` is swallowed). -/
def memory_add (s : Calculator) : Calculator :=
  match parseNum s.current_input with
  | some q => { s with memory := qadd s.memory q }
  | none => s

/-- Model of `Calculator.memory_subtract` (`ValueError` is swallowed). -/
def memory_subtract (s : Calculator) : Calculator :=
  match parseNum s.current_input with
  | some q => { s with memory := qsub s.memory q }
  | none => s

/-- Model of `Calculator.memory_recall`: `str(self.memory)` of a float. -/
def memory_recall (s : Calculator) : Calculator :=
  { s with current_input := pyFloatStr s.memory }

/-- Model of `Calculator.memory_clear`. -/
def memory_clear (s : Calculator) : Calculator :=
  { s with memory := 0 }

/-- Model of `Calculator.percentage` (`str(float(...) / 100)`). -/
def percentage (s : Calculator) : Calculator :=
  match parseNum s.current_input with
  | some q => { s with current_input := pyFloatStr (qdiv q 100) }
  | none => s

/-- Model of `Calculator.toggle_sign` (strip or prepend a leading `-`). -/
def toggle_sign (s : Calculator) : Calculator :=
  match s.current_input.data with
  | '-' :: r => { s with current_input := String.mk r }
  | _ => { s with current_input := "-" ++ s.current_input }

/-- One user action, as dispatched by `CalculatorApp._on_button_click`. -/
inductive Act where
  | add (v : String)
  | setOp (o : String)
  | eval
  | clearE
  | clearA
  | memAdd
  | memSub
  | memRec
  | memClr
  | pct
  | toggle

/-- Actions the GUI can actually send: digits and the dot to
`add_to_input`, the six operator symbols to `set_operation`. -/
def validAct : Act → Prop
  | .add v => v ∈ ["0", "1", "2", "3", "4", "5", "6", "7", "8", "9", "."]
  | .setOp o => o ∈ ["+", "-", "*", "/", "^", "√"]
  | _ => True

instance (a : Act) : Decidable (validAct a) := by
  cases a <;> (unfold validAct; infer_instance)

/-- Effect of one action on the engine state. -/
def applyAct (s : Calculator) : Act → Calculator
  | .add v => add_to_input s v
  | .setOp o => set_operation s o
  | .eval => (calculate s).1
  | .clearE => clear_entry s
  | .clearA => clear_all s
  | .memAdd => memory_add s
  | .memSub => memory_subtract s
  | .memRec => memory_recall s
  | .memClr => memory_clear s
  | .pct => percentage s
  | .toggle => toggle_sign s

/-- State after a list of actions, starting from the freshly built object. -/
def runActs (acts : List Act) : Calculator :=
  acts.foldl applyAct initCalc

/-- States the GUI can drive the engine into. -/
def Reachable (s : Calculator) : Prop :=
  ∃ acts : List Act, (∀ a ∈ acts, validAct a) ∧ runActs acts = s

/-- Concatenation of a list of strings. -/
def joinStr : List String → String
  | [] => ""
  | d :: tl => d ++ joinStr tl

/-- The `currentInput` the spec predicts for a typed digit sequence:
the exact concatenation, with leading-zero suppression applied only to
the bare `"0"` seed (a sequence starting with `"."` keeps the seed). -/
def typedResult (ds : List String) : String :=
  let rest := ds.dropWhile (fun d => d = "0")
  if rest = [] then "0"
  else if rest.head? = some "." then "0" ++ joinStr rest
  else joinStr rest

/-- Number of decimal points in a typed sequence. -/
def dotCount (ds : List String) : ℕ :=
  ds.count "."

/-- Action of `add_to_input` on the `current_input` field alone. -/
def addCur (c v : String) : String :=
  if v = "." ∧ '.' ∈ c.data then c
  else if c = "0" ∧ v ≠ "." then v
  else c ++ v

/-- Inductive invariant behind claim C4: `current_input` can be `""`
(or the intermediate `"-"` that `toggle_sign` makes of it) only while
an operation is pending with a captured left operand, and a `-` never
occurs beyond position 0 of `current_input`. -/
def inv4 (s : Calculator) : Prop :=
  ((s.current_input = "" ∨ s.current_input = "-") →
    opTruthy s.operation ∧ s.previous_input ≠ "") ∧
  '-' ∉ s.current_input.data.drop 1

instance (s : Calculator) : Decidable (inv4 s) := by
  unfold inv4; infer_instance

/-! Basic facts about strings, digits and the printing helpers. -/

theorem strData_append (a b : String) : (a ++ b).data = a.data ++ b.data := by
  cases a; cases b; rfl

theorem str_ne_empty_of_data {s : String} (h : s.data ≠ []) : s ≠ "" := by
  intro e; exact h (by rw [e])

theorem str_append_nil (s : String) : s ++ "" = s := by
  cases s with
  | mk d => show String.mk (d ++ []) = String.mk d; rw [List.append_nil]

theorem str_append_assoc (a b c : String) : a ++ b ++ c = a ++ (b ++ c) := by
  cases a; cases b; cases c
  show String.mk _ = String.mk _
  rw [List.append_assoc]

theorem digCh_isDigit (n : ℕ) : (digCh n).isDigit = true := by
  unfold digCh; split <;> decide

theorem isDigit_ne_dot {c : Char} (h : c.isDigit = true) : c ≠ '.' := by
  intro e; rw [e] at h; exact absurd h (by decide)

theorem isDigit_ne_dash {c : Char} (h : c.isDigit = true) : c ≠ '-' := by
  intro e; rw [e] at h; exact absurd h (by decide)

theorem natDigsAux_digits : ∀ fuel n : ℕ, ∀ c ∈ natDigsAux fuel n, c.isDigit = true := by
  intro fuel
  induction fuel with
  | zero => intro n c hc; simp [natDigsAux] at hc
  | succ f ih =>
    intro n c hc
    unfold natDigsAux at hc
    split at hc
    · rw [List.mem_singleton] at hc; rw [hc]; exact digCh_isDigit n
    · rcases List.mem_append.mp hc with h | h
      · exact ih _ c h
      · rw [List.mem_singleton] at h; rw [h]; exact digCh_isDigit _

theorem natStr_digits (n : ℕ) : ∀ c ∈ (natStr n).data, c.isDigit = true :=
  natDigsAux_digits (n + 1) n

theorem natStr_ne_nil (n : ℕ) : (natStr n).data ≠ [] := by
  show natDigsAux (n + 1) n ≠ []
  unfold natDigsAux
  split <;> simp

theorem intStr_data_cases (i : ℤ) :
    (intStr i).data = '-' :: (natStr i.natAbs).data ∨ (intStr i).data = (natStr i.natAbs).data := by
  unfold intStr
  split
  · left; rw [strData_append]; rfl
  · right; rfl

theorem intStr_ne_nil (i : ℤ) : (intStr i).data ≠ [] := by
  rcases intStr_data_cases i with h | h <;> rw [h]
  · simp
  · exact natStr_ne_nil _

theorem intStr_no_dot (i : ℤ) : '.' ∉ (intStr i).data := by
  rcases intStr_data_cases i with h | h <;> rw [h] <;> intro hm
  · rcases List.mem_cons.mp hm with h' | h'
    · exact absurd h' (by decide)
    · exact isDigit_ne_dot (natStr_digits _ _ h') rfl
  · exact isDigit_ne_dot (natStr_digits _ _ hm) rfl

theorem intStr_drop_no_dash (i : ℤ) : '-' ∉ (intStr i).data.drop 1 := by
  rcases intStr_data_cases i with h | h <;> rw [h] <;> intro hm
  · exact isDigit_ne_dash (natStr_digits _ _ hm) rfl
  · exact isDigit_ne_dash (natStr_digits _ _ (List.mem_of_mem_drop hm)) rfl

theorem intStr_ne_dash (i : ℤ) : (intStr i).data ≠ ['-'] := by
  rcases intStr_data_cases i with h | h <;> rw [h] <;> intro he
  · have : (natStr i.natAbs).data = [] := by
      injection he
    exact natStr_ne_nil _ this
  · have : '-' ∈ (natStr i.natAbs).data := by rw [he]; exact List.mem_singleton_self _
    exact isDigit_ne_dash (natStr_digits _ _ this) rfl

theorem natPad_digits (k m : ℕ) : ∀ c ∈ (natPad k (natStr m)).data, c.isDigit = true := by
  unfold natPad
  split
  · exact natStr_digits m
  · intro c hc
    rw [strData_append] at hc
    rcases List.mem_append.mp hc with h | h
    · have : c = '0' := List.eq_of_mem_replicate h
      rw [this]; rfl
    · exact natStr_digits m c h

theorem pyFloatStr_has_dot (q : ℚ) : '.' ∈ (pyFloatStr q).data := by
  unfold pyFloatStr
  split
  · rw [strData_append]
    exact List.mem_append_right _ (by decide)
  · dsimp only
    rw [strData_append, strData_append, strData_append]
    exact List.mem_append_left _ (List.mem_append_right _ (by decide))

theorem pyFloatStr_ne_empty (q : ℚ) : pyFloatStr q ≠ "" := by
  have h := pyFloatStr_has_dot q
  intro e; rw [e] at h; exact absurd h (by decide)

theorem pyFloatStr_ne_dash (q : ℚ) : pyFloatStr q ≠ "-" := by
  have h := pyFloatStr_has_dot q
  intro e; rw [e] at h; exact absurd h (by decide)

theorem pyFloatStr_drop_no_dash (q : ℚ) : '-' ∉ (pyFloatStr q).data.drop 1 := by
  unfold pyFloatStr
  split
  · rw [strData_append]
    rcases intStr_data_cases q.num with h | h <;> rw [h] <;> intro hm
    · have hm' : '-' ∈ (natStr q.num.natAbs).data ++ (".0" : String).data := hm
      rcases List.mem_append.mp hm' with h' | h'
      · exact isDigit_ne_dash (natStr_digits _ _ h') rfl
      · exact absurd h' (by decide)
    · have h2 := List.mem_of_mem_drop hm
      rcases List.mem_append.mp h2 with h' | h'
      · exact isDigit_ne_dash (natStr_digits _ _ h') rfl
      · exact absurd h' (by decide)
  · dsimp only
    split
    · rw [strData_append, strData_append, strData_append]
      intro hm
      have hm' : '-' ∈ ((natStr _).data ++ ("." : String).data) ++ (natPad _ (natStr _)).data := hm
      rcases List.mem_append.mp hm' with h' | h'
      · rcases List.mem_append.mp h' with h'' | h''
        · exact isDigit_ne_dash (natStr_digits _ _ h'') rfl
        · exact absurd h'' (by decide)
      · exact isDigit_ne_dash (natPad_digits _ _ _ h') rfl
    · rw [strData_append, strData_append, strData_append]
      intro hm
      have h2 := List.mem_of_mem_drop hm
      rcases List.mem_append.mp h2 with h' | h'
      · rcases List.mem_append.mp h' with h'' | h''
        · rcases List.mem_append.mp h'' with h3 | h3
          · exact absurd h3 (by decide)
          · exact isDigit_ne_dash (natStr_digits _ _ h3) rfl
        · exact absurd h'' (by decide)
      · exact isDigit_ne_dash (natPad_digits _ _ _ h') rfl

theorem valStr_num_ne_empty (q : ℚ) : valStr (.num q) ≠ "" := by
  show (if q.den = 1 then intStr q.num else pyFloatStr q) ≠ ""
  split
  · exact str_ne_empty_of_data (intStr_ne_nil _)
  · exact pyFloatStr_ne_empty q

theorem valStr_num_ne_dash (q : ℚ) : valStr (.num q) ≠ "-" := by
  show (if q.den = 1 then intStr q.num else pyFloatStr q) ≠ "-"
  split
  · intro e
    exact intStr_ne_dash q.num (by rw [e])
  · exact pyFloatStr_ne_dash q

theorem valStr_num_drop_no_dash (q : ℚ) : '-' ∉ (valStr (.num q)).data.drop 1 := by
  show '-' ∉ (if q.den = 1 then intStr q.num else pyFloatStr q).data.drop 1
  split
  · exact intStr_drop_no_dash _
  · exact pyFloatStr_drop_no_dash q

theorem parseNum_empty_eq : parseNum "" = none := rfl

theorem parseNum_ne_empty {s : String} {q : ℚ} (h : parseNum s = some q) : s ≠ "" := by
  intro e; rw [e, parseNum_empty_eq] at h; exact Option.noConfusion h

theorem clear_entry_eq (s : Calculator) : clear_entry s = { s with current_input := "0" } := by
  unfold clear_entry
  dsimp only
  rw [if_neg]
  intro h
  exact absurd h.2 (by decide)

theorem finishCalc_fst_current (s : Calculator) (op : String) (r : PyVal) :
    ((finishCalc s op r).1).current_input = valStr r := rfl

theorem finishCalc_fst_hist_le (s : Calculator) (op : String) (r : PyVal)
    (h : s.history.length ≤ 10) : ((finishCalc s op r).1).history.length ≤ 10 := by
  unfold finishCalc
  dsimp only
  split
  · rename_i hgt
    rw [List.length_drop, List.length_append, List.length_singleton]
    omega
  · rename_i hle
    rw [List.length_append, List.length_singleton] at hle ⊢
    omega

theorem calcDispatch_fst_cases (s : Calculator) (op : String) (a b : ℚ) :
    (calcDispatch s op a b).1 = s ∨ (calcDispatch s op a b).1.current_input = "0" ∨
    (∃ q, (calcDispatch s op a b).1.current_input = valStr (.num q)) ∨
    (calcDispatch s op a b).1.current_input = "Error: Div/0" := by
  unfold calcDispatch
  repeat' split
  all_goals first
    | (left; rfl)
    | (right; left; rfl)
    | (right; right; left; exact ⟨_, rfl⟩)
    | (right; right; right; rfl)

theorem calculate_fst_cases (s : Calculator) :
    (calculate s).1 = s ∨ (calculate s).1.current_input = "0" ∨
    (∃ q, (calculate s).1.current_input = valStr (.num q)) ∨
    (calculate s).1.current_input = "Error: Div/0" := by
  unfold calculate
  repeat' split
  all_goals first
    | (left; rfl)
    | (right; left; rfl)
    | exact calcDispatch_fst_cases _ _ _ _

theorem calculate_fst_current_ne (s : Calculator) (h : s.current_input ≠ "") :
    (calculate s).1.current_input ≠ "" := by
  rcases calculate_fst_cases s with e | e | ⟨q, e⟩ | e
  · rw [e]; exact h
  · rw [e]; decide
  · rw [e]; exact valStr_num_ne_empty q
  · rw [e]; decide

theorem calcDispatch_fst_hist_le (s : Calculator) (op : String) (a b : ℚ)
    (h : s.history.length ≤ 10) : (calcDispatch s op a b).1.history.length ≤ 10 := by
  unfold calcDispatch
  repeat' split
  all_goals first
    | exact h
    | exact finishCalc_fst_hist_le _ _ _ h
    | simp [clear_all]

theorem calculate_fst_hist_le (s : Calculator)
    (h : s.history.length ≤ 10) : (calculate s).1.history.length ≤ 10 := by
  unfold calculate
  repeat' split
  all_goals first
    | exact h
    | exact calcDispatch_fst_hist_le _ _ _ _ h
    | simp [clear_all]

theorem set_operation_hist_le (s : Calculator) (op : String)
    (h : s.history.length ≤ 10) : (set_operation s op).history.length ≤ 10 := by
  unfold set_operation
  split
  · exact h
  · dsimp only
    split
    · exact calculate_fst_hist_le s h
    · exact h

theorem applyAct_hist_le (s : Calculator) (a : Act)
    (h : s.history.length ≤ 10) : (applyAct s a).history.length ≤ 10 := by
  cases a with
  | add v =>
    show (add_to_input s v).history.length ≤ 10
    unfold add_to_input
    repeat' split
    all_goals exact h
  | setOp o => exact set_operation_hist_le s o h
  | eval => exact calculate_fst_hist_le s h
  | clearE =>
    show (clear_entry s).history.length ≤ 10
    rw [clear_entry_eq]; exact h
  | clearA => simp [applyAct, clear_all]
  | memAdd =>
    show (memory_add s).history.length ≤ 10
    unfold memory_add
    split <;> exact h
  | memSub =>
    show (memory_subtract s).history.length ≤ 10
    unfold memory_subtract
    split <;> exact h
  | memRec => exact h
  | memClr => exact h
  | pct =>
    show (percentage s).history.length ≤ 10
    unfold percentage
    split <;> exact h
  | toggle =>
    show (toggle_sign s).history.length ≤ 10
    unfold toggle_sign
    split <;> exact h

theorem reachable_ind (P : Calculator → Prop) (h0 : P initCalc)
    (hstep : ∀ s a, validAct a → P s → P (applyAct s a)) :
    ∀ s, Reachable s → P s := by
  have key : ∀ (l : List Act) (s0 : Calculator),
      (∀ a ∈ l, validAct a) → P s0 → P (l.foldl applyAct s0) := by
    intro l
    induction l with
    | nil => intro s0 _ h; exact h
    | cons a tl ih =>
      intro s0 hv h
      exact ih _ (fun x hx => hv x (List.mem_cons_of_mem _ hx))
        (hstep s0 a (hv a (List.mem_cons_self _ _)) h)
  rintro s ⟨acts, hv, rfl⟩
  exact key acts initCalc hv h0

theorem inv4_init : inv4 initCalc := by decide

theorem inv4_easy (s : Calculator) (h1 : s.current_input ≠ "") (h2 : s.current_input ≠ "-")
    (h3 : '-' ∉ s.current_input.data.drop 1) : inv4 s :=
  ⟨fun h => False.elim (h.elim (fun e => h1 e) (fun e => h2 e)), h3⟩

theorem valid_op_ne_empty {o : String} (h : o ∈ ["+", "-", "*", "/", "^", "√"]) : o ≠ "" := by
  simp only [List.mem_cons, List.mem_singleton, List.not_mem_nil, or_false] at h
  rcases h with rfl | rfl | rfl | rfl | rfl | rfl <;> decide

theorem valid_digit_facts {v : String}
    (h : v ∈ ["0", "1", "2", "3", "4", "5", "6", "7", "8", "9", "."]) :
    v.data ≠ [] ∧ v ≠ "-" ∧ '-' ∉ v.data := by
  simp only [List.mem_cons, List.mem_singleton, List.not_mem_nil, or_false] at h
  rcases h with rfl | rfl | rfl | rfl | rfl | rfl | rfl | rfl | rfl | rfl | rfl <;> decide

theorem inv4_add (s : Calculator) {v : String}
    (hv : v ∈ ["0", "1", "2", "3", "4", "5", "6", "7", "8", "9", "."])
    (h : inv4 s) : inv4 (add_to_input s v) := by
  obtain ⟨hvne, hvdash, hvnd⟩ := valid_digit_facts hv
  unfold add_to_input
  split
  · exact h
  · split
    · apply inv4_easy
      · exact str_ne_empty_of_data hvne
      · exact hvdash
      · intro hm; exact hvnd (List.mem_of_mem_drop hm)
    · constructor
      · intro hcc
        exfalso
        rcases hcc with e | e
        · have hd := congrArg String.data e
          rw [strData_append] at hd
          exact hvne (List.append_eq_nil.mp hd).2
        · have hd := congrArg String.data e
          rw [strData_append] at hd
          cases hq : s.current_input.data with
          | nil =>
            rw [hq] at hd
            have hd' : v.data = ['-'] := hd
            exact hvnd (by rw [hd']; exact List.mem_singleton_self '-')
          | cons c t =>
            rw [hq, List.cons_append] at hd
            injection hd with h1 h2
            exact hvne (List.append_eq_nil.mp h2).2
      · intro hm
        have hm0 : '-' ∈ (s.current_input ++ v).data.drop 1 := hm
        rw [strData_append] at hm0
        cases hq : s.current_input.data with
        | nil =>
          rw [hq] at hm0
          have hm' : '-' ∈ v.data.drop 1 := hm0
          exact hvnd (List.mem_of_mem_drop hm')
        | cons c t =>
          rw [hq, List.cons_append] at hm0
          have hm' : '-' ∈ t ++ v.data := hm0
          rcases List.mem_append.mp hm' with h' | h'
          · apply h.2
            rw [hq]
            exact h'
          · exact hvnd h'

theorem inv4_setOp (s : Calculator) {o : String}
    (ho : o ∈ ["+", "-", "*", "/", "^", "√"]) (h : inv4 s) : inv4 (set_operation s o) := by
  unfold set_operation
  split
  · exact h
  · rename_i hcur
    dsimp only
    constructor
    · intro _
      constructor
      · exact ⟨fun he => Option.noConfusion he,
          fun he => valid_op_ne_empty ho (Option.some.inj he)⟩
      · show (if opTruthy s.operation ∧ s.previous_input ≠ "" then (calculate s).1 else s).current_input ≠ ""
        split
        · exact calculate_fst_current_ne s hcur
        · exact hcur
    · exact List.not_mem_nil '-'

theorem inv4_eval (s : Calculator) (h : inv4 s) : inv4 ((calculate s).1) := by
  rcases calculate_fst_cases s with e | e | ⟨q, e⟩ | e
  · rw [e]; exact h
  · apply inv4_easy <;> rw [e] <;> decide
  · apply inv4_easy <;> rw [e]
    · exact valStr_num_ne_empty q
    · exact valStr_num_ne_dash q
    · exact valStr_num_drop_no_dash q
  · apply inv4_easy <;> rw [e] <;> decide

theorem inv4_toggle (s : Calculator) (h : inv4 s) : inv4 (toggle_sign s) := by
  unfold toggle_sign
  split
  · rename_i r heq
    have hdrop : '-' ∉ r := by
      intro hm
      apply h.2
      rw [heq]
      exact hm
    constructor
    · intro hcc
      rcases hcc with e | e
      · have hr : r = [] := congrArg String.data e
        apply h.1
        right
        exact String.ext (by rw [heq, hr])
      · have hr : r = ['-'] := congrArg String.data e
        exact absurd (by rw [hr]; exact List.mem_singleton_self '-') hdrop
    · intro hm
      exact hdrop (List.mem_of_mem_drop hm)
  · rename_i hne
    constructor
    · intro hcc
      rcases hcc with e | e
      · exfalso
        have hd := congrArg String.data e
        rw [strData_append] at hd
        have hd' : ('-' :: s.current_input.data : List Char) = [] := hd
        exact List.noConfusion hd'
      · have hd := congrArg String.data e
        rw [strData_append] at hd
        have hd' : ('-' :: s.current_input.data : List Char) = ['-'] := hd
        injection hd' with h1 h2
        have hcur : s.current_input = "" := String.ext h2
        exact h.1 (Or.inl hcur)
    · intro hm
      have hm0 : '-' ∈ ("-" ++ s.current_input).data.drop 1 := hm
      rw [strData_append] at hm0
      have hm' : '-' ∈ s.current_input.data := hm0
      cases hq : s.current_input.data with
      | nil => rw [hq] at hm'; exact absurd hm' (List.not_mem_nil _)
      | cons c t =>
        rw [hq] at hm'
        rcases List.mem_cons.mp hm' with e | e
        · exact hne t (by rw [hq, ← e])
        · apply h.2
          rw [hq]
          exact e

theorem inv4_memRec (s : Calculator) : inv4 (memory_recall s) := by
  apply inv4_easy
  · exact pyFloatStr_ne_empty s.memory
  · exact pyFloatStr_ne_dash s.memory
  · exact pyFloatStr_drop_no_dash s.memory

theorem inv4_step : ∀ (s : Calculator) (a : Act), validAct a → inv4 s → inv4 (applyAct s a) := by
  intro s a hv h
  cases a with
  | add v => exact inv4_add s hv h
  | setOp o => exact inv4_setOp s hv h
  | eval => exact inv4_eval s h
  | clearE =>
    show inv4 (clear_entry s)
    rw [clear_entry_eq]
    apply inv4_easy
    · show ("0" : String) ≠ ""; decide
    · show ("0" : String) ≠ "-"; decide
    · show '-' ∉ ("0" : String).data.drop 1; decide
  | clearA =>
    show inv4 (clear_all s)
    apply inv4_easy
    · show ("0" : String) ≠ ""; decide
    · show ("0" : String) ≠ "-"; decide
    · show '-' ∉ ("0" : String).data.drop 1; decide
  | memAdd =>
    show inv4 (memory_add s)
    unfold memory_add
    split <;> exact h
  | memSub =>
    show inv4 (memory_subtract s)
    unfold memory_subtract
    split <;> exact h
  | memRec => exact inv4_memRec s
  | memClr => exact h
  | pct =>
    show inv4 (percentage s)
    unfold percentage
    split
    · apply inv4_easy
      · exact pyFloatStr_ne_empty _
      · exact pyFloatStr_ne_dash _
      · exact pyFloatStr_drop_no_dash _
    · exact h
  | toggle => exact inv4_toggle s h

theorem str_data_ne {c : String} (h : c ≠ "") : c.data ≠ [] :=
  fun hd => h (String.ext hd)

theorem str_append_ne_empty {a b : String} (hb : b.data ≠ []) : a ++ b ≠ "" := by
  intro e
  have hd := congrArg String.data e
  rw [strData_append] at hd
  exact hb (List.append_eq_nil.mp hd).2

theorem str_append_ne_one {a b : String} (ha : a.data ≠ []) (hb : b.data ≠ [])
    (t : String) (ht : t.data.length = 1) : a ++ b ≠ t := by
  intro e
  have hd := congrArg String.data e
  have hlen := congrArg List.length hd
  rw [strData_append] at hlen
  rw [List.length_append, ht] at hlen
  have la : 0 < a.data.length := List.length_pos.mpr ha
  have lb : 0 < b.data.length := List.length_pos.mpr hb
  omega

theorem valid_digit_no_dot {v : String}
    (h : v ∈ ["0", "1", "2", "3", "4", "5", "6", "7", "8", "9", "."]) (hne : v ≠ ".") :
    '.' ∉ v.data := by
  simp only [List.mem_cons, List.mem_singleton, List.not_mem_nil, or_false] at h
  rcases h with rfl | rfl | rfl | rfl | rfl | rfl | rfl | rfl | rfl | rfl | rfl
  all_goals first
    | decide
    | exact absurd rfl hne

theorem dotCount_cons (d : String) (tl : List String) :
    dotCount (d :: tl) = dotCount tl + (if d = "." then 1 else 0) := by
  simp [dotCount, List.count_cons]

theorem add_to_input_cur (s : Calculator) (v : String) :
    add_to_input s v = { s with current_input := addCur s.current_input v } := by
  unfold add_to_input addCur
  by_cases h1 : v = "." ∧ '.' ∈ s.current_input.data
  · rw [if_pos h1, if_pos h1]
  · rw [if_neg h1, if_neg h1]
    by_cases h2 : s.current_input = "0" ∧ v ≠ "."
    · rw [if_pos h2, if_pos h2]
    · rw [if_neg h2, if_neg h2]

theorem foldAdd_state (ds : List String) : ∀ s : Calculator,
    (ds.map Act.add).foldl applyAct s = { s with current_input := ds.foldl addCur s.current_input } := by
  induction ds with
  | nil => intro s; rfl
  | cons d tl ih =>
    intro s
    show (tl.map Act.add).foldl applyAct (add_to_input s d) = _
    rw [add_to_input_cur, ih]
    rfl

theorem addCur_append {c : String} (v : String) (h1 : ¬(v = "." ∧ '.' ∈ c.data))
    (h2 : c ≠ "0") : addCur c v = c ++ v := by
  unfold addCur
  rw [if_neg h1, if_neg (fun hc => h2 hc.1)]

theorem foldCur_append : ∀ (ds : List String) (c : String),
    c ≠ "0" → c ≠ "" →
    (∀ d ∈ ds, d ∈ ["0", "1", "2", "3", "4", "5", "6", "7", "8", "9", "."]) →
    dotCount ds + (if '.' ∈ c.data then 1 else 0) ≤ 1 →
    ds.foldl addCur c = c ++ joinStr ds := by
  intro ds
  induction ds with
  | nil => intro c _ _ _ _; exact (str_append_nil c).symm
  | cons d tl ih =>
    intro c hc0 hcE hv hdots
    have hdmem := hv d (List.mem_cons_self _ _)
    obtain ⟨hdne, hddash, hdnd⟩ := valid_digit_facts hdmem
    have hv' : ∀ x ∈ tl, x ∈ ["0", "1", "2", "3", "4", "5", "6", "7", "8", "9", "."] :=
      fun x hx => hv x (List.mem_cons_of_mem _ hx)
    by_cases hdot : d = "."
    · subst hdot
      have hcnodot : '.' ∉ c.data := by
        intro hcd
        rw [if_pos hcd, dotCount_cons, if_pos rfl] at hdots
        omega
      have ha : addCur c "." = c ++ "." := addCur_append "." (fun hh => hcnodot hh.2) hc0
      show List.foldl addCur (addCur c ".") tl = _
      rw [ha]
      have h0' : c ++ "." ≠ "0" :=
        str_append_ne_one (str_data_ne hcE) (by decide) "0" (by decide)
      have hE' : c ++ "." ≠ "" := str_append_ne_empty (by decide)
      have hd' : dotCount tl + (if '.' ∈ (c ++ ".").data then 1 else 0) ≤ 1 := by
        rw [if_pos (by rw [strData_append]; exact List.mem_append_right _ (by decide))]
        rw [if_neg hcnodot, dotCount_cons, if_pos rfl] at hdots
        omega
      rw [ih (c ++ ".") h0' hE' hv' hd', str_append_assoc]
      rfl
    · have hdnodot : '.' ∉ d.data := valid_digit_no_dot hdmem hdot
      have ha : addCur c d = c ++ d := addCur_append d (fun hh => hdot hh.1) hc0
      show List.foldl addCur (addCur c d) tl = _
      rw [ha]
      have h0' : c ++ d ≠ "0" := str_append_ne_one (str_data_ne hcE) hdne "0" (by decide)
      have hE' : c ++ d ≠ "" := str_append_ne_empty hdne
      have hd' : dotCount tl + (if '.' ∈ (c ++ d).data then 1 else 0) ≤ 1 := by
        have hiff : (if '.' ∈ (c ++ d).data then 1 else 0 : ℕ) = (if '.' ∈ c.data then 1 else 0 : ℕ) := by
          by_cases hcc : '.' ∈ c.data
          · rw [if_pos hcc, if_pos (by rw [strData_append]; exact List.mem_append_left _ hcc)]
          · rw [if_neg hcc, if_neg ?_]
            intro hm
            rw [strData_append] at hm
            rcases List.mem_append.mp hm with h' | h'
            · exact hcc h'
            · exact hdnodot h'
        rw [hiff]
        rw [dotCount_cons, if_neg hdot] at hdots
        omega
      rw [ih (c ++ d) h0' hE' hv' hd', str_append_assoc]
      rfl

theorem foldCur_typed : ∀ ds : List String,
    (∀ d ∈ ds, d ∈ ["0", "1", "2", "3", "4", "5", "6", "7", "8", "9", "."]) →
    dotCount ds ≤ 1 →
    ds.foldl addCur "0" = typedResult ds := by
  intro ds
  induction ds with
  | nil => intro _ _; rfl
  | cons d tl ih =>
    intro hv hdots
    have hdmem := hv d (List.mem_cons_self _ _)
    have hv' : ∀ x ∈ tl, x ∈ ["0", "1", "2", "3", "4", "5", "6", "7", "8", "9", "."] :=
      fun x hx => hv x (List.mem_cons_of_mem _ hx)
    by_cases hd0 : d = "0"
    · subst hd0
      show List.foldl addCur (addCur "0" "0") tl = _
      have ha : addCur "0" "0" = "0" := by decide
      rw [ha, ih hv' (by rw [dotCount_cons, if_neg (by decide)] at hdots; omega)]
      unfold typedResult
      rw [List.dropWhile_cons_of_pos (by decide)]
    · by_cases hdot : d = "."
      · subst hdot
        show List.foldl addCur (addCur "0" ".") tl = _
        have ha : addCur "0" "." = "0." := by decide
        rw [ha]
        have hd' : dotCount tl + (if '.' ∈ ("0." : String).data then 1 else 0) ≤ 1 := by
          rw [if_pos (by decide)]
          rw [dotCount_cons, if_pos rfl] at hdots
          omega
        rw [foldCur_append tl "0." (by decide) (by decide) hv' hd']
        unfold typedResult
        rw [List.dropWhile_cons_of_neg (by decide)]
        rw [if_neg (List.cons_ne_nil _ _), if_pos (by rw [List.head?_cons])]
        show "0." ++ joinStr tl = "0" ++ ("." ++ joinStr tl)
        rw [← str_append_assoc]
        have he : ("0" : String) ++ "." = "0." := by decide
        rw [he]
      · show List.foldl addCur (addCur "0" d) tl = _
        have ha : addCur "0" d = d := by
          unfold addCur
          rw [if_neg (fun hh => hdot hh.1), if_pos ⟨rfl, hdot⟩]
        rw [ha]
        obtain ⟨hdne, _, _⟩ := valid_digit_facts hdmem
        have hdnodot := valid_digit_no_dot hdmem hdot
        have hd' : dotCount tl + (if '.' ∈ d.data then 1 else 0) ≤ 1 := by
          rw [if_neg hdnodot]
          rw [dotCount_cons, if_neg hdot] at hdots
          omega
        rw [foldCur_append tl d hd0 (str_ne_empty_of_data hdne) hv' hd']
        unfold typedResult
        rw [List.dropWhile_cons_of_neg (by simp [hd0])]
        rw [if_neg (List.cons_ne_nil _ _), if_neg ?_]
        · rfl
        · intro hh
          rw [List.head?_cons] at hh
          exact hdot (Option.some.inj hh)

theorem valStr_int_iff (r : ℚ) : valStr (.num r) = intStr r.num ↔ r.den = 1 := by
  show (if r.den = 1 then intStr r.num else pyFloatStr r) = intStr r.num ↔ r.den = 1
  split
  · rename_i h; exact iff_of_true rfl h
  · rename_i h
    constructor
    · intro e
      exfalso
      have hdot := pyFloatStr_has_dot r
      rw [e] at hdot
      exact intStr_no_dot r.num hdot
    · intro hh; exact absurd hh h

theorem valStr_dot (r : ℚ) (h : r.den ≠ 1) : '.' ∈ (valStr (.num r)).data := by
  show '.' ∈ (if r.den = 1 then intStr r.num else pyFloatStr r).data
  rw [if_neg h]
  exact pyFloatStr_has_dot r

theorem calculate_dispatch_eq (s : Calculator) (op : String) (a b : ℚ)
    (hso : s.operation = some op) (hopne : op ≠ "")
    (hpa : parseNum s.previous_input = some a)
    (hpb : (s.current_input = "" ∧ b = a) ∨ parseNum s.current_input = some b) :
    calculate s = calcDispatch s op a b := by
  have hprev : s.previous_input ≠ "" := parseNum_ne_empty hpa
  unfold calculate
  rw [hso]
  dsimp only
  rw [if_neg (fun hh => hh.elim hopne hprev)]
  rw [hpa]
  dsimp only
  rcases hpb with ⟨hc, hb⟩ | hp
  · rw [if_pos hc]
    dsimp only
    rw [hb]
  · rw [if_neg (parseNum_ne_empty hp), hp]

theorem calcDispatch_sqrt (s : Calculator) (a b : ℚ) (ha : ¬a < 0) :
    calcDispatch s "√" a b = finishCalc s "√" (.num (ratSqrt a)) := by
  unfold calcDispatch
  rw [if_neg (by decide), if_neg (by decide), if_neg (by decide), if_neg (by decide),
    if_neg (by decide), if_pos rfl, if_neg ha]

theorem calcDispatch_sqrt_neg (s : Calculator) (a b : ℚ) (ha : a < 0) :
    calcDispatch s "√" a b = (clear_all s, .str "Error") := by
  unfold calcDispatch
  rw [if_neg (by decide), if_neg (by decide), if_neg (by decide), if_neg (by decide),
    if_neg (by decide), if_pos rfl, if_pos ha]

/-! Claim theorems. -/

/-- C1 (code_bug evidence): on input `5`, `/`, `0`, `evaluate()` the source
does NOT reset to the initial state.  Because line 102 produces the string
`"Error: Div/0"` as `result` instead of raising, the error string flows
through the success path: it is appended to the history, stored as
`current_input`, and `previous_input` stays `"5"`.  Only `operation` is
cleared.  The claim's promised post-state (`currentInput = "0"`,
`previousInput = ""`, `history = []`) does not hold. -/
theorem claim_C1_divzero_no_reset :
    calculate (runActs [Act.add "5", Act.setOp "/", Act.add "0"]) =
      (⟨"Error: Div/0", "5", none, 0, ["5 / 0 = Error: Div/0"], ""⟩, PyVal.str "Error: Div/0") ∧
    (runActs [Act.add "5", Act.setOp "/", Act.add "0", Act.eval]).current_input ≠ "0" ∧
    (runActs [Act.add "5", Act.setOp "/", Act.add "0", Act.eval]).previous_input ≠ "" ∧
    (runActs [Act.add "5", Act.setOp "/", Act.add "0", Act.eval]).history ≠ [] := by
  refine ⟨by decide, by decide, by decide, by decide⟩

/-- C2: the history never holds more than 10 entries in any reachable
state, and after 11 successful evaluations (here `+1` eleven times,
starting from `0`) the oldest entry `"0 + 1 = 1"` has been evicted and
the 10 most recent entries remain in evaluation order. -/
theorem claim_C2_history_bound :
    (∀ s, Reachable s → s.history.length ≤ 10) ∧
    (runActs ((List.replicate 11 [Act.setOp "+", Act.add "1", Act.eval]).flatten)).history =
      ["1 + 1 = 2", "2 + 1 = 3", "3 + 1 = 4", "4 + 1 = 5", "5 + 1 = 6",
       "6 + 1 = 7", "7 + 1 = 8", "8 + 1 = 9", "9 + 1 = 10", "10 + 1 = 11"] := by
  constructor
  · exact reachable_ind (fun s => s.history.length ≤ 10) (by decide)
      (fun s a _ h => applyAct_hist_le s a h)
  · decide

/-- Witness for C2 at a concrete reachable state. -/
theorem claim_C2_history_bound_witness :
    Reachable (runActs [Act.add "5"]) ∧ (runActs [Act.add "5"]).history.length ≤ 10 :=
  ⟨⟨[Act.add "5"], by decide, rfl⟩,
    claim_C2_history_bound.1 _ ⟨[Act.add "5"], by decide, rfl⟩⟩

/-- C3: `clear_entry` only resets `current_input` to `"0"`; every other
field (in particular a pending `operation`) is untouched, because the
source's guard re-checks the just-assigned, hence non-empty,
`current_input`. -/
theorem claim_C3_clear_entry (s : Calculator) :
    clear_entry s = { s with current_input := "0" } :=
  clear_entry_eq s

/-- C4 counterexample: the claim "no operation ever leaves currentInput
empty" is false: after entering `5` and selecting `+`, the reachable
state has `current_input = ""` (line 76 of the source). -/
theorem claim_C4_counterexample :
    Reachable (runActs [Act.add "5", Act.setOp "+"]) ∧
    (runActs [Act.add "5", Act.setOp "+"]).current_input = "" :=
  ⟨⟨[Act.add "5", Act.setOp "+"], by decide, rfl⟩, by decide⟩

/-- C4 (amended): `current_input` starts as `"0"`, and in every
reachable state it can be empty only while an operation is pending and
`previous_input` holds the captured left operand. -/
theorem claim_C4_amended (s : Calculator) (hr : Reachable s)
    (hc : s.current_input = "") :
    opTruthy s.operation ∧ s.previous_input ≠ "" :=
  (reachable_ind inv4 inv4_init inv4_step s hr).1 (Or.inl hc)

/-- Witness for the amended C4 at the concrete reachable state of the
counterexample. -/
theorem claim_C4_amended_witness :
    opTruthy (runActs [Act.add "5", Act.setOp "+"]).operation ∧
    (runActs [Act.add "5", Act.setOp "+"]).previous_input ≠ "" :=
  claim_C4_amended _ ⟨[Act.add "5", Act.setOp "+"], by decide, rfl⟩ (by decide)

theorem qadd_eq (a b : ℚ) : qadd a b = a + b := (Rat.add_def' a b).symm

theorem qsub_eq (a b : ℚ) : qsub a b = a - b := (Rat.sub_def' a b).symm

theorem qmul_eq (a b : ℚ) : qmul a b = a * b := by
  rw [Rat.mul_def, Rat.normalize_eq_mkRat]
  rfl

theorem qinv_eq (a : ℚ) : qinv a = a⁻¹ := (Rat.inv_def a).symm

theorem qdiv_eq (a b : ℚ) : qdiv a b = a / b := by
  rw [Rat.div_def, qdiv, qmul_eq, qinv_eq]
  rfl

theorem qzpow_eq (a : ℚ) (n : ℤ) : qzpow a n = a ^ n := by
  cases n with
  | ofNat m => rw [qzpow, Int.ofNat_eq_coe, zpow_natCast]
  | negSucc m => rw [qzpow, qinv_eq, zpow_negSucc]

theorem roundtrip_state (sa sb op : String) (hsa : sa ≠ "") :
    ({ set_operation { initCalc with current_input := sa } op with current_input := sb } :
      Calculator) = ⟨sb, sa, some op, 0, [], sa ++ " " ++ op⟩ := by
  have h0 : ({ initCalc with current_input := sa } : Calculator) = ⟨sa, "", none, 0, [], ""⟩ := rfl
  rw [h0]
  unfold set_operation
  rw [if_neg hsa]
  dsimp only
  rw [if_neg (fun hh => hh.1.1 rfl)]

/-- C5: entering an operand parsing to `a`, selecting `op ∈ {+,-,*,^}`,
entering an operand parsing to `b` and evaluating returns the exact
mathematical value of `a op b` (for `^` within the rational domain:
integer exponent, and `0 ^ negative` excluded since the source raises
there), and the stored `current_input` is the integer literal of the
result exactly when the result is an integer, otherwise a decimal
containing a `.`. -/
theorem claim_C5_binop_roundtrip (a b : ℚ) (sa sb op : String)
    (hop : op = "+" ∨ op = "-" ∨ op = "*" ∨ op = "^")
    (hpa : parseNum sa = some a) (hpb : parseNum sb = some b)
    (hpow : op = "^" → b.den = 1) (hzero : ¬(op = "^" ∧ a = 0 ∧ b < 0)) :
    ∃ r : ℚ,
      (calculate { set_operation { initCalc with current_input := sa } op with
          current_input := sb }).2 = PyVal.num r ∧
      (calculate { set_operation { initCalc with current_input := sa } op with
          current_input := sb }).1.current_input = valStr (.num r) ∧
      (op = "+" → r = a + b) ∧ (op = "-" → r = a - b) ∧ (op = "*" → r = a * b) ∧
      (op = "^" → r = a ^ b.num) ∧
      ((calculate { set_operation { initCalc with current_input := sa } op with
          current_input := sb }).1.current_input = intStr r.num ↔ r.den = 1) ∧
      (r.den ≠ 1 → '.' ∈ (calculate { set_operation { initCalc with current_input := sa } op with
          current_input := sb }).1.current_input.data) := by
  have hsa : sa ≠ "" := parseNum_ne_empty hpa
  rw [roundtrip_state sa sb op hsa]
  have hopne : op ≠ "" := by rcases hop with rfl | rfl | rfl | rfl <;> decide
  rw [calculate_dispatch_eq ⟨sb, sa, some op, 0, [], sa ++ " " ++ op⟩ op a b rfl hopne hpa
    (Or.inr hpb)]
  rcases hop with rfl | rfl | rfl | rfl
  · unfold calcDispatch
    rw [if_pos rfl]
    exact ⟨qadd a b, rfl, rfl, fun _ => qadd_eq a b, fun h => absurd h (by decide),
      fun h => absurd h (by decide), fun h => absurd h (by decide), valStr_int_iff _,
      fun h => valStr_dot _ h⟩
  · unfold calcDispatch
    rw [if_neg (by decide), if_pos rfl]
    exact ⟨qsub a b, rfl, rfl, fun h => absurd h (by decide), fun _ => qsub_eq a b,
      fun h => absurd h (by decide), fun h => absurd h (by decide), valStr_int_iff _,
      fun h => valStr_dot _ h⟩
  · unfold calcDispatch
    rw [if_neg (by decide), if_neg (by decide), if_pos rfl]
    exact ⟨qmul a b, rfl, rfl, fun h => absurd h (by decide), fun h => absurd h (by decide),
      fun _ => qmul_eq a b, fun h => absurd h (by decide), valStr_int_iff _,
      fun h => valStr_dot _ h⟩
  · unfold calcDispatch
    rw [if_neg (by decide), if_neg (by decide), if_neg (by decide), if_neg (by decide),
      if_pos rfl, if_neg (fun hh => hzero ⟨rfl, hh⟩)]
    refine ⟨qpow a b, rfl, rfl, fun h => absurd h (by decide), fun h => absurd h (by decide),
      fun h => absurd h (by decide), fun _ => ?_, valStr_int_iff _, fun h => valStr_dot _ h⟩
    unfold qpow
    rw [if_pos (hpow rfl), qzpow_eq]

/-- Witness for C5: `0.5 + 1` evaluates to `1.5`, kept as a decimal. -/
theorem claim_C5_binop_roundtrip_witness :
    ∃ r : ℚ,
      (calculate { set_operation { initCalc with current_input := "0.5" } "+" with
          current_input := "1" }).2 = PyVal.num r ∧
      (calculate { set_operation { initCalc with current_input := "0.5" } "+" with
          current_input := "1" }).1.current_input = valStr (.num r) ∧
      ("+" = "+" → r = mkRat 1 2 + 1) ∧ ("+" = "-" → r = mkRat 1 2 - 1) ∧
      ("+" = "*" → r = mkRat 1 2 * 1) ∧ ("+" = "^" → r = mkRat 1 2 ^ (1 : ℚ).num) ∧
      ((calculate { set_operation { initCalc with current_input := "0.5" } "+" with
          current_input := "1" }).1.current_input = intStr r.num ↔ r.den = 1) ∧
      (r.den ≠ 1 → '.' ∈ (calculate { set_operation { initCalc with current_input := "0.5" } "+" with
          current_input := "1" }).1.current_input.data) :=
  claim_C5_binop_roundtrip (mkRat 1 2) 1 "0.5" "1" "+" (Or.inl rfl) (by decide) (by decide)
    (fun h => absurd h (by decide)) (fun hh => absurd hh.1 (by decide))

/-- C6: `set_operation` is a no-op on empty input; otherwise it first
evaluates a pending operation when one exists together with a non-empty
`previous_input`, then captures the (possibly just computed)
`current_input` as `previous_input`, empties `current_input`, stores the
operation and sets the label `"<previousInput> <op>"`.  The concrete
chain `5 + 3 + 2 =` evaluates `5 + 3` before starting `+ 2`. -/
theorem claim_C6_set_operation :
    (∀ (s : Calculator) (op : String),
      (s.current_input = "" → set_operation s op = s) ∧
      (s.current_input ≠ "" → ¬(opTruthy s.operation ∧ s.previous_input ≠ "") →
        set_operation s op =
          { s with
            previous_input := s.current_input
            current_input := ""
            operation := some op
            last_operation := s.current_input ++ " " ++ op }) ∧
      (s.current_input ≠ "" → opTruthy s.operation → s.previous_input ≠ "" →
        set_operation s op =
          { (calculate s).1 with
            previous_input := (calculate s).1.current_input
            current_input := ""
            operation := some op
            last_operation := (calculate s).1.current_input ++ " " ++ op })) ∧
    runActs [Act.add "5", Act.setOp "+", Act.add "3", Act.setOp "+"] =
      ⟨"", "8", some "+", 0, ["5 + 3 = 8"], "8 +"⟩ ∧
    runActs [Act.add "5", Act.setOp "+", Act.add "3", Act.setOp "+", Act.add "2", Act.eval] =
      ⟨"10", "8", none, 0, ["5 + 3 = 8", "8 + 2 = 10"], ""⟩ := by
  refine ⟨fun s op => ⟨?_, ?_, ?_⟩, by decide, by decide⟩
  · intro h
    unfold set_operation
    rw [if_pos h]
  · intro h hn
    unfold set_operation
    rw [if_neg h]
    dsimp only
    rw [if_neg hn]
  · intro h h1 h2
    unfold set_operation
    rw [if_neg h]
    dsimp only
    rw [if_pos ⟨h1, h2⟩]

/-- Witness for C6 at a concrete state with a pending operation: the
pending `5 +` is evaluated with `3` before `+` is re-selected. -/
theorem claim_C6_set_operation_witness :
    set_operation ⟨"3", "5", some "+", 0, [], "5 +"⟩ "+" =
      { (calculate ⟨"3", "5", some "+", 0, [], "5 +"⟩).1 with
        previous_input := (calculate ⟨"3", "5", some "+", 0, [], "5 +"⟩).1.current_input
        current_input := ""
        operation := some "+"
        last_operation := (calculate ⟨"3", "5", some "+", 0, [], "5 +"⟩).1.current_input ++ " " ++ "+" } :=
  (claim_C6_set_operation.1 ⟨"3", "5", some "+", 0, [], "5 +"⟩ "+").2.2 (by decide) (by decide)
    (by decide)

/-- C7: a second decimal point is silently ignored, a bare `"0"` seed is
replaced by the first non-dot keystroke, everything else appends; hence
a typed digit sequence with at most one `.` yields exactly the typed
concatenation (with leading-zero suppression only on the `"0"` seed). -/
theorem claim_C7_append_digit :
    (∀ s : Calculator, '.' ∈ s.current_input.data → add_to_input s "." = s) ∧
    (∀ (s : Calculator) (v : String), s.current_input = "0" → v ≠ "." →
      add_to_input s v = { s with current_input := v }) ∧
    (∀ (s : Calculator) (v : String), ¬(v = "." ∧ '.' ∈ s.current_input.data) →
      ¬(s.current_input = "0" ∧ v ≠ ".") →
      add_to_input s v = { s with current_input := s.current_input ++ v }) ∧
    (∀ ds : List String,
      (∀ d ∈ ds, d ∈ ["0", "1", "2", "3", "4", "5", "6", "7", "8", "9", "."]) →
      dotCount ds ≤ 1 → (runActs (ds.map Act.add)).current_input = typedResult ds) := by
  refine ⟨?_, ?_, ?_, ?_⟩
  · intro s h
    unfold add_to_input
    rw [if_pos ⟨rfl, h⟩]
  · intro s v h1 h2
    unfold add_to_input
    rw [if_neg (fun hh => absurd (h1 ▸ hh.2) (by decide)), if_pos ⟨h1, h2⟩]
  · intro s v h1 h2
    unfold add_to_input
    rw [if_neg h1, if_neg h2]
  · intro ds hv hdots
    show ((ds.map Act.add).foldl applyAct initCalc).current_input = _
    rw [foldAdd_state]
    exact foldCur_typed ds hv hdots

/-- Witness for C7: typing `1`, `.`, `5` yields exactly `"1.5"`. -/
theorem claim_C7_append_digit_witness :
    (runActs ([ "1", ".", "5"].map Act.add)).current_input = "1.5" := by
  have h := claim_C7_append_digit.2.2.2 ["1", ".", "5"] (by decide) (by decide)
  rw [h]
  decide

/-- C8: with `√` pending, `calculate` takes the square root of the left
operand alone — the parsed right operand is irrelevant to the result —
and `16 √ =` yields `4` with no second operand typed. -/
theorem claim_C8_sqrt_unary :
    (∀ (s : Calculator) (a b : ℚ), s.operation = some "√" →
      parseNum s.previous_input = some a → 0 ≤ a →
      (s.current_input = "" ∨ parseNum s.current_input = some b) →
      (calculate s).2 = PyVal.num (ratSqrt a)) ∧
    calculate (runActs [Act.add "1", Act.add "6", Act.setOp "√"]) =
      (⟨"4", "16", none, 0, ["16 √  = 4"], ""⟩, PyVal.num 4) := by
  constructor
  · intro s a b hso hpa ha hcur
    rcases hcur with e | hp
    · rw [calculate_dispatch_eq s "√" a a hso (by decide) hpa (Or.inl ⟨e, rfl⟩),
        calcDispatch_sqrt s a a (not_lt.mpr ha)]
      rfl
    · rw [calculate_dispatch_eq s "√" a b hso (by decide) hpa (Or.inr hp),
        calcDispatch_sqrt s a b (not_lt.mpr ha)]
      rfl
  · decide

/-- Witness for C8: the right operand `3` is ignored; `√` of the left
operand `16` gives `4`. -/
theorem claim_C8_sqrt_unary_witness :
    (calculate ⟨"3", "16", some "√", 0, [], ""⟩).2 = PyVal.num 4 := by
  have h := claim_C8_sqrt_unary.1 ⟨"3", "16", some "√", 0, [], ""⟩ 16 3 rfl (by decide)
    (by decide) (Or.inr (by decide))
  rw [h]
  decide

/-- C9: `memory_recall` always stores the raw float string of the
memory register into `current_input`; after `MC`, typing `5`, `M+`,
`MR` the display value is `"5.0"`, not `"5"`. -/
theorem claim_C9_memory_recall :
    (∀ s : Calculator, memory_recall s = { s with current_input := pyFloatStr s.memory }) ∧
    (runActs [Act.memClr, Act.add "5", Act.memAdd, Act.memRec]).current_input = "5.0" ∧
    (runActs [Act.memClr, Act.add "5", Act.memAdd, Act.memRec]).current_input ≠ "5" :=
  ⟨fun _ => rfl, by decide, by decide⟩

/-- C10: with `√` pending over a negative left operand, `calculate`
raises `ValueError` in `math.sqrt`, caught by the generic handler: it
returns the plain `"Error"` indicator (not the divide-by-zero one) and
fully resets every field except `memory`. -/
theorem claim_C10_sqrt_negative (s : Calculator) (a b : ℚ)
    (hso : s.operation = some "√") (hpa : parseNum s.previous_input = some a) (ha : a < 0)
    (hcur : s.current_input = "" ∨ parseNum s.current_input = some b) :
    calculate s =
      ({ s with
          current_input := "0"
          previous_input := ""
          operation := none
          last_operation := ""
          history := [] }, PyVal.str "Error") := by
  rcases hcur with e | hp
  · rw [calculate_dispatch_eq s "√" a a hso (by decide) hpa (Or.inl ⟨e, rfl⟩),
      calcDispatch_sqrt_neg s a a ha]
    rfl
  · rw [calculate_dispatch_eq s "√" a b hso (by decide) hpa (Or.inr hp),
      calcDispatch_sqrt_neg s a b ha]
    rfl

/-- Witness for C10: `√` over `-4` yields `"Error"` and the reset
state. -/
theorem claim_C10_sqrt_negative_witness :
    calculate ⟨"", "-4", some "√", 7, [], "-4 √"⟩ =
      (⟨"0", "", none, 7, [], ""⟩, PyVal.str "Error") := by
  have h := claim_C10_sqrt_negative ⟨"", "-4", some "√", 7, [], "-4 √"⟩ (-4) 0 rfl (by decide)
    (by decide) (Or.inl rfl)
  exact h
